import Mathlib

/-!
Verification of the darknet.js binding layer (`src/darknet.ts` / `src/detector.ts`,
compiled `src/darknet.js`).

The development shallowly embeds the pure/orchestration parts of the code:

* the image codec `rgbToDarknet` / `imageToRGBBuffer` (triple nested loops over
  row, channel, column writing into a flat array), with JavaScript number
  semantics modelled exactly: a `Float32Array` store rounds an IEEE-754 double
  to binary32, and a `Buffer` (Uint8Array) store truncates toward zero and
  reduces modulo 2^8.  Binary floating-point values are represented as exact
  dyadic fractions `(numerator, power-of-two denominator) : ℕ × ℕ`, and the
  IEEE round-to-nearest-even roundings are implemented over ℕ;
* the prediction-memory ring (`makeMemory`, `resetMemory`, `rememberNet`) as a
  state machine over `RingState`;
* the detection decoding `bufferToDetections`;
* the orchestration of `detectAsync` / `_detectAsync` as a step function over
  an oracle of native call outcomes, instrumented with an event trace that
  records native allocations, frees, and the arguments of the averaging call;
* constructor validation and the threshold-defaulting logic of
  `detectAsync` / `detectFromImageAsync` (JavaScript truthiness of the config
  fields modelled explicitly: `0`, `""`, `undefined` are falsy, arrays are
  truthy).
-/

/-! ## IEEE-754 rounding over ℕ (JavaScript number semantics)

A JavaScript number is an IEEE-754 binary64; a `Float32Array` element store
rounds it to binary32 (round to nearest, ties to even).  All numeric values
appearing in the codec are nonnegative dyadic rationals scaled by 1/255, so we
represent them exactly as fractions `(n, d) : ℕ × ℕ` (value `n / d`, `d > 0`)
and implement the roundings by integer arithmetic.  Exponent ranges stay far
inside the normal range of both formats, so subnormals and overflow do not
arise for the inputs the codec produces. -/

/-- Structural (fuel-driven) floor of the base-2 logarithm of a natural
number; `log2F n 64 = Nat.log2 n` for all `n < 2^64`. -/
def log2F : ℕ → ℕ → ℕ
  | _, 0 => 0
  | n, Nat.succ f => if n ≤ 1 then 0 else log2F (n / 2) f + 1

/-- Round `a / b` (with `b > 0`) to the nearest integer, ties to even. -/
def rhe (a b : ℕ) : ℕ :=
  let q := a / b
  let r := a % b
  if 2 * r < b then q else if b < 2 * r then q + 1 else if q % 2 = 0 then q else q + 1

/-- Floor of the base-2 logarithm of the positive rational `n / d`. -/
def flog2N (n d : ℕ) : ℤ :=
  if d ≤ n then (log2F (n / d) 64 : ℤ)
  else
    let t := log2F (d / n) 64
    if n * 2 ^ t = d then -(t : ℤ) else -(t : ℤ) - 1

/-- Round the nonnegative fraction `n / d` to a binary floating-point value
with `prec` significand bits (round to nearest, ties to even), returned as a
dyadic fraction (numerator, power-of-two denominator).  `prec = 53` models
IEEE binary64 (a JavaScript number), `prec = 24` models binary32 (a
`Float32Array` element). -/
def rqN (prec : ℕ) (n d : ℕ) : ℕ × ℕ :=
  if n = 0 then (0, 1) else
  let e : ℤ := flog2N n d
  let g : ℤ := e - ((prec : ℤ) - 1)
  if 0 ≤ g then (rhe n (d * 2 ^ g.toNat) * 2 ^ g.toNat, 1)
  else (rhe (n * 2 ^ (-g).toNat) d, 2 ^ (-g).toNat)

/-- The rational value of a dyadic fraction. -/
def pairVal (p : ℕ × ℕ) : ℚ := (p.1 : ℚ) / (p.2 : ℚ)

/-- Model of the source expression `buffer[...] / 255` assigned to a
`Float32Array` element (`rgbToDarknet`): the byte `b` is divided by 255 in
binary64 arithmetic and the quotient is stored as binary32. -/
def jsDiv255 (b : ℕ) : ℕ × ℕ := rqN 24 (rqN 53 b 255).1 (rqN 53 b 255).2

/-- Model of the source expression `imageData[...] * 255` (`imageToRGBBuffer`):
binary64 multiplication of a stored binary32 value by 255. -/
def jsMul255 (p : ℕ × ℕ) : ℕ × ℕ := rqN 53 (p.1 * 255) p.2

/-- Model of assigning a nonnegative number to a `Buffer` (Uint8Array)
element: ToUint8 truncates toward zero and reduces modulo 2^8. -/
def jsToUint8 (p : ℕ × ℕ) : ℕ := (p.1 / p.2) % 256

/-- One sample pushed through the codec round trip: byte to planar float
(`rgbToDarknet`) and back to an interleaved byte (`imageToRGBBuffer`). -/
def byteRT (b : ℕ) : ℕ := jsToUint8 (jsMul255 (jsDiv255 b))

/-- A byte value scales exactly through the codec when the binary32 stored
for `b / 255` represents the rational `b / 255` with no rounding error. -/
def scalesExactly (b : ℕ) : Prop := pairVal (jsDiv255 b) = (b : ℚ) / 255

/-! ## The nested-loop array writes of the codec

Both codec directions are triple nested loops (row `i`, channel `k`, column
`j`, in that nesting order) each iteration of which writes one cell of a flat
output array.  We model flat arrays as functions `ℕ → α` and a single write
as `setIdx`; `jLoopW`, `kLoopW`, `triLoopW` are the three loop levels, with
the cell index given by `e i k j` and the stored value by `v i k j`. -/

/-- Write value `v` at index `n` of the flat array `fb`. -/
def setIdx {α : Type} (fb : ℕ → α) (n : ℕ) (v : α) : ℕ → α :=
  fun p => if p = n then v else fb p

/-- Innermost loop: `for (j = 0; j < n; ++j) out[e i k j] = v i k j`. -/
def jLoopW {α : Type} (e : ℕ → ℕ → ℕ → ℕ) (v : ℕ → ℕ → ℕ → α) (i k n : ℕ)
    (fb : ℕ → α) : ℕ → α :=
  (List.range n).foldl (fun fb j => setIdx fb (e i k j) (v i k j)) fb

/-- Middle loop over the channel index `k`. -/
def kLoopW {α : Type} (e : ℕ → ℕ → ℕ → ℕ) (v : ℕ → ℕ → ℕ → α) (w i n : ℕ)
    (fb : ℕ → α) : ℕ → α :=
  (List.range n).foldl (fun fb k => jLoopW e v i k w fb) fb

/-- Outer loop over the row index `i`: the full triple loop of the codec. -/
def triLoopW {α : Type} (e : ℕ → ℕ → ℕ → ℕ) (v : ℕ → ℕ → ℕ → α) (h c w : ℕ)
    (fb : ℕ → α) : ℕ → α :=
  (List.range h).foldl (fun fb i => kLoopW e v w i c fb) fb

/-- `rgbToDarknet(buffer, w, h, c)` from the source: allocates a zero-filled
`Float32Array` of `w*h*c` elements and runs
`for i < h: for k < c: for j < w: floatBuff[k*w*h + i*w + j] = buffer[i*step + j*c + k] / 255`
with `step = w*c`.  Bytes of the input buffer are `B : ℕ → ℕ`; the planar
result holds binary32 values as dyadic fractions. -/
def rgbToDarknet (B : ℕ → ℕ) (w h c : ℕ) : ℕ → ℕ × ℕ :=
  triLoopW (fun i k j => k * w * h + i * w + j)
    (fun i k j => jsDiv255 (B (i * (w * c) + j * c + k)))
    h c w (fun _ => (0, 1))

/-- The write loop of `imageToRGBBuffer(image)` from the source: reads the
planar binary32 data and runs
`for i < h: for k < c: for j < w: rgbBuffer[i*step + j*c + k] = imageData[k*w*h + i*w + j] * 255`
with `step = c*w`.  (`Buffer.allocUnsafe` leaves the buffer uninitialized;
every cell below `w*h*c` is overwritten by the loop, so the initial contents
are irrelevant and modelled as 0.) -/
def imageToRGBBuffer (data : ℕ → ℕ × ℕ) (w h c : ℕ) : ℕ → ℕ :=
  triLoopW (fun i k j => i * (c * w) + j * c + k)
    (fun i k j => jsToUint8 (jsMul255 (data (k * w * h + i * w + j))))
    h c w (fun _ => 0)

/-! ## The prediction-memory ring -/

/-- State of the prediction-memory ring: `idx` is `memoryIndex` (next slot to
write), `used` is `memorySlotsUsed`, `cap` is `memoryCount`.  `written` is
instrumentation recording which native slots have been written by
`network_remember_memory` since the last (re)allocation. -/
structure RingState where
  idx : ℕ
  used : ℕ
  cap : ℕ
  written : List ℕ
  deriving DecidableEq

/-- `makeMemory()` from the source: `memoryIndex = 0`, allocate fresh slots
(nothing written yet), `memorySlotsUsed = 0`. -/
def makeMemory (cap : ℕ) : RingState :=
  { idx := 0, used := 0, cap := cap, written := [] }

/-- The state update of a successful `rememberNet()`: the native call writes
slot `memoryIndex`, then
`memoryIndex = (memoryIndex + 1) % memoryCount` and
`memorySlotsUsed = Math.min(memorySlotsUsed + 1, memoryCount)`. -/
def rememberNet (r : RingState) : RingState :=
  { idx := (r.idx + 1) % r.cap
    used := min (r.used + 1) r.cap
    cap := r.cap
    written := r.idx :: r.written }

/-- The constructor's `this.memoryCount = config.memory || 3`: `undefined`
and `0` are falsy, so both give the default capacity 3. -/
def initialCap (memory : Option ℕ) : ℕ :=
  match memory with
  | none => 3
  | some 0 => 3
  | some k => k

/-- An operation on the ring reachable through the class interface:
a successful `rememberNet`, or `resetMemory({memory})` (`reset none` is
`resetMemory()` which keeps the current capacity — the destructured default
applies only when the argument is `undefined`). -/
inductive MemOp
  | remember : MemOp
  | reset : Option ℕ → MemOp
  deriving DecidableEq

/-- Apply one ring operation.  `resetMemory` frees the old slots, installs the
new capacity and calls `makeMemory()`. -/
def memStep (r : RingState) : MemOp → RingState
  | MemOp.remember => rememberNet r
  | MemOp.reset m => makeMemory (m.getD r.cap)

/-- The ring state after construction with `config.memory = m0` followed by a
sequence of interface operations. -/
def runMemOps (m0 : Option ℕ) (ops : List MemOp) : RingState :=
  ops.foldl memStep (makeMemory (initialCap m0))

/-! ## Detection decoding -/

/-- An axis-aligned box, 4 binary32 fields of the native `BBOX` struct. -/
structure Box where
  x : ℚ
  y : ℚ
  w : ℚ
  h : ℚ

/-- A raw native detection record as read through the `DETECTION` struct
mirror: the box and the per-class probability array `prob`. -/
structure DetRec where
  bbox : Box
  prob : ℕ → ℚ

/-- A decoded detection `{name, prob, box}` returned to the caller. -/
structure Detection where
  name : String
  prob : ℚ
  box : Box

/-- The record pushed by `bufferToDetections` for record `det` and class
index `j`: `{name: this.names[j], prob: prob[j], box: det.bbox}`. -/
def detEntry (names : List String) (det : DetRec) (j : ℕ) : Detection :=
  { name := names.getD j "", prob := det.prob j, box := det.bbox }

/-- `bufferToDetections(buffer, length)` from the source: for each of the raw
detection records, for each class index `j < meta.classes`, if `prob[j] > 0`
push `{name: this.names[j], prob: prob[j], box: det.bbox}`. -/
def bufferToDetections (names : List String) (classes : ℕ) (recs : List DetRec) :
    List Detection :=
  recs.foldl (fun acc det =>
    (List.range classes).foldl (fun acc j =>
      if 0 < det.prob j then acc ++ [detEntry names det j]
      else acc) acc) []

/-! ## The detect orchestration (`detectAsync` / `_detectAsync`)

Each native call either succeeds or reports an error to its completion
callback; an error rejects the corresponding promise and the `await` rethrows
it out of the enclosing async function (there is no try/finally in the
source).  We model the outcomes of the native calls of one `detectAsync` call
as an oracle of booleans, and instrument the run with a trace of native
events: allocations (`load_image_color` returning an image,
`network_avg_predictions` returning a detection array), the matching frees
(`free_image`, `free_detections`), and the slot arguments passed to
`network_remember_memory` and `network_avg_predictions`. -/

/-- Success/failure of each native call made during one `detectAsync`. -/
structure NativeOutcomes where
  loadOk : Bool
  convertOk : Bool
  predictOk : Bool
  rememberOk : Bool
  avgOk : Bool
  nmsOk : Bool
  freeImgOk : Bool
  deriving DecidableEq

/-- A native event observed during one `detectAsync` call. -/
inductive NEvent
  | allocImage : NEvent
  | freeImage : NEvent
  | allocDets : NEvent
  | freeDets : NEvent
  | rememberCall : ℕ → NEvent
  | avgCall : ℕ → NEvent
  deriving DecidableEq

/-- `_detectAsync(net, meta, image, ...)` from the source:
`network_predict_image`, then `rememberNet()` (ring update only after the
native call succeeds), then `avgPrediction` with `this.memorySlotsUsed` as the
slot count (allocating the detection array on success), then `do_nms_obj`,
then decode with `bufferToDetections` and free with `free_detections`.
Returns the event trace, the ring state, and the decoded detections
(`none` when a native call failed and the rejection propagated). -/
def detectAsyncInner (o : NativeOutcomes) (names : List String) (classes : ℕ)
    (recs : List DetRec) (r : RingState) :
    List NEvent × RingState × Option (List Detection) :=
  if o.predictOk then
    if o.rememberOk then
      let r' := rememberNet r
      if o.avgOk then
        if o.nmsOk then
          ([NEvent.rememberCall r.idx, NEvent.avgCall r'.used, NEvent.allocDets,
            NEvent.freeDets], r',
            some (bufferToDetections names classes recs))
        else
          ([NEvent.rememberCall r.idx, NEvent.avgCall r'.used, NEvent.allocDets], r', none)
      else ([NEvent.rememberCall r.idx, NEvent.avgCall r'.used], r', none)
    else ([NEvent.rememberCall r.idx], r, none)
  else ([], r, none)

/-- `detectAsync(image, config)` from the source.  `fromPath = true` is the
string-path case: `load_image_color` allocates a native image, and after
`_detectAsync` returns normally the image is freed with `free_image`
(an `await` in between, so a rejection of `_detectAsync` skips the free).
`fromPath = false` is the caller-buffer case: `rgbToDarknet` plus
`float_to_image`, whose pixel memory is owned by the JS buffer and is not
freed natively. -/
def detectAsyncRun (o : NativeOutcomes) (fromPath : Bool) (names : List String)
    (classes : ℕ) (recs : List DetRec) (r : RingState) :
    List NEvent × RingState × Option (List Detection) :=
  if fromPath then
    if o.loadOk then
      let inner := detectAsyncInner o names classes recs r
      match inner.2.2 with
      | some dets =>
        (NEvent.allocImage :: inner.1 ++ [NEvent.freeImage], inner.2.1,
          if o.freeImgOk then some dets else none)
      | none => (NEvent.allocImage :: inner.1, inner.2.1, none)
    else ([], r, none)
  else
    if o.convertOk then detectAsyncInner o names classes recs r
    else ([], r, none)

/-- Discriminators for counting allocation/free events in a trace. -/
def isAllocImage : NEvent → Bool
  | NEvent.allocImage => true
  | _ => false

def isFreeImage : NEvent → Bool
  | NEvent.freeImage => true
  | _ => false

def isAllocDets : NEvent → Bool
  | NEvent.allocDets => true
  | _ => false

def isFreeDets : NEvent → Bool
  | NEvent.freeDets => true
  | _ => false

/-- The slot-count arguments of the `network_avg_predictions` calls occurring
in a trace. -/
def avgArgs (tr : List NEvent) : List ℕ :=
  tr.filterMap (fun ev => match ev with
    | NEvent.avgCall n => some n
    | _ => none)

/-! ## Threshold defaulting of `detectAsync` / `detectFromImageAsync` -/

/-- The caller-facing detection config: all three fields optional. -/
structure IConfig where
  thresh : Option ℚ
  hier_thresh : Option ℚ
  nms : Option ℚ

/-- The source expression `(config.x) ? config.x : 0.5`: an absent field and
the falsy number `0` both yield the default `0.5`.  (`NaN`, the remaining
falsy number, has no rational counterpart and is outside the model.) -/
def resolveThresh (o : Option ℚ) : ℚ :=
  match o with
  | none => 0.5
  | some v => if v = 0 then 0.5 else v

/-- The `(thresh, hier_thresh, nms)` triple that `detectAsync` passes on to
`_detectAsync`, from lines
`if (!config) config = {}; let thresh = (config.thresh) ? config.thresh : 0.5; ...`. -/
def detectAsyncParams (config : Option IConfig) : ℚ × ℚ × ℚ :=
  let cfg := config.getD { thresh := none, hier_thresh := none, nms := none }
  (resolveThresh cfg.thresh, resolveThresh cfg.hier_thresh, resolveThresh cfg.nms)

/-- The same defaulting, duplicated verbatim in `detectFromImageAsync`. -/
def detectFromImageAsyncParams (config : Option IConfig) : ℚ × ℚ × ℚ :=
  let cfg := config.getD { thresh := none, hier_thresh := none, nms := none }
  (resolveThresh cfg.thresh, resolveThresh cfg.hier_thresh, resolveThresh cfg.nms)

/-! ## Constructor validation -/

/-- The constructor's config object (`IDarknetConfig`).  String fields are
`Option String` (`none` is `undefined`); `names` is an optional string array;
`memory` an optional slot count. -/
structure IDarknetConfig where
  weights : Option String
  config : Option String
  names : Option (List String)
  namefile : Option String
  memory : Option ℕ

/-- JavaScript truthiness of an optional string: `undefined` and the empty
string are falsy. -/
def truthyStr : Option String → Bool
  | none => false
  | some s => !(s == "")

/-- JavaScript truthiness of an optional array: any array (even empty) is
truthy, `undefined` is falsy. -/
def truthyArr : Option (List String) → Bool
  | none => false
  | some _ => true

/-- Native calls made by the constructor after validation passes. -/
inductive CEvent
  | loadNetwork : CEvent
  | outputSize : CEvent
  | memoryMake : CEvent
  deriving DecidableEq

/-- The `DarknetBase` constructor: the chain of synchronous validation throws,
then `readFileSync(namefile).split('\n')` when names are to be loaded from a
file (the file system is modelled by the total function `fs`), then the name
filtering, `memoryCount = config.memory || 3`, and only then the native calls
`load_network`, `network_output_size` and `makeMemory`'s
`network_memory_make`.  Returns either the error message thrown or the
filtered names and capacity, together with the trace of native calls. -/
def constructorRun (config? : Option IDarknetConfig) (fs : String → String) :
    Except String (List String × ℕ) × List CEvent :=
  match config? with
  | none => (Except.error "A config file is required", [])
  | some config =>
    if !truthyArr config.names && !truthyStr config.namefile then
      (Except.error "Config must include detection class names", [])
    else
      let names1 : Option (List String) :=
        if !truthyArr config.names && truthyStr config.namefile then
          some ((fs (config.namefile.getD "")).splitOn "\n")
        else config.names
      if !truthyArr names1 then (Except.error "No names detected.", [])
      else if !truthyStr config.config then
        (Except.error "Config must include location to yolo config file", [])
      else if !truthyStr config.weights then
        (Except.error "config must include the path to trained weights", [])
      else
        ((Except.ok ((names1.getD []).filter (fun a => a.length > 0),
          initialCap config.memory)),
          [CEvent.loadNetwork, CEvent.outputSize, CEvent.memoryMake])

/-- The Memory Ring invariant: the write index is inside the slot array, the
populated count never exceeds the capacity, and every slot below the populated
count has been written by a remember call (plus the bookkeeping facts that
make the invariant inductive). -/
def RingInv (r : RingState) : Prop :=
  r.idx < r.cap ∧ r.used ≤ r.cap ∧ 1 ≤ r.cap ∧
    (r.used < r.cap → r.idx = r.used) ∧ ∀ t, t < r.used → t ∈ r.written

/-- A ring operation with a positive capacity argument (an explicit
`resetMemory({memory: k})` requires `k ≥ 1`; a remember or an argumentless
reset is always allowed). -/
def capOk : MemOp → Prop
  | MemOp.remember => True
  | MemOp.reset none => True
  | MemOp.reset (some k) => 1 ≤ k

instance : DecidablePred capOk := fun op =>
  match op with
  | MemOp.remember => Decidable.isTrue trivial
  | MemOp.reset none => Decidable.isTrue trivial
  | MemOp.reset (some k) => inferInstanceAs (Decidable (1 ≤ k))

/-- Whether the constructor threw. -/
def ctorFailed (config? : Option IDarknetConfig) (fs : String → String) : Bool :=
  match (constructorRun config? fs).1 with
  | Except.error _ => true
  | Except.ok _ => false

/-- The failure condition claimed for the constructor: config absent, both
`names` and `namefile` missing (falsy), the yolo config path missing (falsy),
or the weights path missing (falsy). -/
def ctorFailCond (config? : Option IDarknetConfig) : Bool :=
  match config? with
  | none => true
  | some config =>
    (!truthyArr config.names && !truthyStr config.namefile) ||
      !truthyStr config.config || !truthyStr config.weights

/-! ## Theorems: the memory ring (C4, C5) -/

lemma rememberNet_cap (r : RingState) : (rememberNet r).cap = r.cap := rfl

lemma rememberNet_iterate_cap (N m : ℕ) :
    (rememberNet^[m] (makeMemory N)).cap = N := by
  induction m with
  | zero => rfl
  | succ m ih => rw [Function.iterate_succ_apply', rememberNet_cap, ih]

lemma rememberNet_iterate_idx_used (N : ℕ) (m : ℕ) :
    (rememberNet^[m] (makeMemory N)).idx = m % N ∧
      (rememberNet^[m] (makeMemory N)).used = min m N := by
  induction m with
  | zero => exact ⟨by simp [makeMemory], by simp [makeMemory]⟩
  | succ m ih =>
    rw [Function.iterate_succ_apply']
    refine ⟨?_, ?_⟩
    · show ((rememberNet^[m] (makeMemory N)).idx + 1) % (rememberNet^[m] (makeMemory N)).cap
        = (m + 1) % N
      rw [rememberNet_iterate_cap, ih.1]
      exact Nat.mod_add_mod m N 1
    · show min ((rememberNet^[m] (makeMemory N)).used + 1)
          (rememberNet^[m] (makeMemory N)).cap = min (m + 1) N
      rw [rememberNet_iterate_cap, ih.2]
      omega

/-- C4: starting from a freshly made memory of capacity `N ≥ 1`, each
successful `rememberNet` advances the write index to `(idx + 1) % N` and the
populated count to `min (used + 1) N`; after `m` calls the index is `m % N`
(so it cycles `0, 1, ..., N-1, 0, ...` in order) and the populated count is
`min m N`, hence it equals `N` after `N` calls and stays `N` thereafter. -/
theorem rememberNet_ring_evolution (N m : ℕ) (hN : 1 ≤ N) :
    (rememberNet^[m] (makeMemory N)).idx = m % N ∧
    (rememberNet^[m] (makeMemory N)).used = min m N ∧
    (N ≤ m → (rememberNet^[m] (makeMemory N)).used = N) ∧
    (rememberNet^[m + 1] (makeMemory N)).idx
      = ((rememberNet^[m] (makeMemory N)).idx + 1) % N ∧
    (rememberNet^[m + 1] (makeMemory N)).used
      = min ((rememberNet^[m] (makeMemory N)).used + 1) N := by
  obtain ⟨h1, h2⟩ := rememberNet_iterate_idx_used N m
  obtain ⟨h1', h2'⟩ := rememberNet_iterate_idx_used N (m + 1)
  refine ⟨h1, h2, ?_, ?_, ?_⟩
  · intro h; rw [h2]; omega
  · rw [h1', h1]; exact (Nat.mod_add_mod m N 1).symm
  · rw [h2', h2]; omega

/-- Witness for C4 at `N = 3`, `m = 7`. -/
theorem rememberNet_ring_evolution_witness :
    (rememberNet^[7] (makeMemory 3)).idx = 7 % 3 :=
  (rememberNet_ring_evolution 3 7 (by decide)).1

lemma ringInv_makeMemory (N : ℕ) (hN : 1 ≤ N) : RingInv (makeMemory N) := by
  refine ⟨hN, by simp [makeMemory], hN, fun _ => rfl, fun t ht => ?_⟩
  simp [makeMemory] at ht

lemma ringInv_rememberNet (r : RingState) (h : RingInv r) : RingInv (rememberNet r) := by
  obtain ⟨hidx, hused, hcap, hstep, hwr⟩ := h
  refine ⟨Nat.mod_lt _ (by omega), min_le_right _ _, hcap, ?_, ?_⟩
  · show min (r.used + 1) r.cap < r.cap → (r.idx + 1) % r.cap = min (r.used + 1) r.cap
    intro hlt
    have h1 : r.used + 1 < r.cap := by omega
    have h2 : r.idx = r.used := hstep (by omega)
    rw [h2, Nat.mod_eq_of_lt h1]
    omega
  · show ∀ t, t < min (r.used + 1) r.cap → t ∈ r.idx :: r.written
    intro t ht
    rcases Nat.lt_or_ge t r.used with h' | h'
    · exact List.mem_cons_of_mem _ (hwr t h')
    · have ht1 : t = r.used := by omega
      have h2 : r.used < r.cap := by omega
      have h3 : r.idx = r.used := hstep h2
      rw [ht1, ← h3]
      exact List.mem_cons_self _ _

lemma ringInv_foldl (ops : List MemOp) (r : RingState) (hr : RingInv r)
    (hops : ∀ op ∈ ops, capOk op) : RingInv (ops.foldl memStep r) := by
  induction ops generalizing r with
  | nil => exact hr
  | cons op ops ih =>
    refine ih (memStep r op) ?_ (fun op' h' => hops op' (List.mem_cons_of_mem _ h'))
    cases op with
    | remember => exact ringInv_rememberNet r hr
    | reset m =>
      cases m with
      | none => exact ringInv_makeMemory _ hr.2.2.1
      | some k =>
        have hk : 1 ≤ k := hops _ (List.mem_cons_self _ _)
        exact ringInv_makeMemory _ hk

lemma one_le_initialCap (m0 : Option ℕ) : 1 ≤ initialCap m0 := by
  cases m0 with
  | none => decide
  | some k => cases k with
    | zero => decide
    | succ k => exact Nat.succ_le_succ (Nat.zero_le k)

lemma ringInv_runMemOps (m0 : Option ℕ) (ops : List MemOp)
    (hops : ∀ op ∈ ops, capOk op) : RingInv (runMemOps m0 ops) :=
  ringInv_foldl ops _ (ringInv_makeMemory _ (one_le_initialCap m0)) hops

/-- C5 counterexample: the interface of `resetMemory` accepts
`{memory: 0}`, and from the state it produces (capacity 0, write index 0)
the claimed invariant `idx ∈ [0, N)` is false. -/
theorem ring_invariant_counterexample :
    ¬ ((runMemOps none [MemOp.reset (some 0)]).idx
        < (runMemOps none [MemOp.reset (some 0)]).cap) := by decide

/-- C5 (amended): in every state reachable by construction, `rememberNet` and
`resetMemory` calls whose explicit capacity arguments are all at least 1, the
populated count is at most the capacity and the write index lies in
`[0, capacity)`.  (As stated the claim is false: the interface type also
admits `resetMemory({memory: 0})`, after which the write index 0 is outside
the empty interval `[0, 0)`.) -/
theorem ring_invariant_reachable (m0 : Option ℕ) (ops : List MemOp)
    (hops : ∀ op ∈ ops, capOk op) :
    (runMemOps m0 ops).used ≤ (runMemOps m0 ops).cap ∧
      (runMemOps m0 ops).idx < (runMemOps m0 ops).cap := by
  obtain ⟨h1, h2, _, _, _⟩ := ringInv_runMemOps m0 ops hops
  exact ⟨h2, h1⟩

/-- Witness for C5 (amended) after five remembers and a reset to capacity 2. -/
theorem ring_invariant_reachable_witness :
    (runMemOps none [MemOp.remember, MemOp.remember, MemOp.reset (some 2),
        MemOp.remember, MemOp.remember, MemOp.remember]).used
      ≤ (runMemOps none [MemOp.remember, MemOp.remember, MemOp.reset (some 2),
        MemOp.remember, MemOp.remember, MemOp.remember]).cap :=
  (ring_invariant_reachable none _ (by decide)).1

/-! ## Theorems: threshold defaulting (C8, C10) -/

/-- C8: when `detectAsync` is called without a config object, or with a config
object omitting a threshold field, the omitted values passed on to
`_detectAsync` are confidence threshold 0.5, hierarchy threshold 0.5 and NMS
threshold 0.5. -/
theorem detectAsync_default_thresholds (cfg : IConfig) :
    detectAsyncParams none = (0.5, 0.5, 0.5) ∧
    (cfg.thresh = none → (detectAsyncParams (some cfg)).1 = 0.5) ∧
    (cfg.hier_thresh = none → (detectAsyncParams (some cfg)).2.1 = 0.5) ∧
    (cfg.nms = none → (detectAsyncParams (some cfg)).2.2 = 0.5) := by
  refine ⟨rfl, ?_, ?_, ?_⟩ <;> intro h <;> simp [detectAsyncParams, resolveThresh, h]

/-- Witness for C8 with a config providing only `nms`. -/
theorem detectAsync_default_thresholds_witness :
    (detectAsyncParams (some ⟨none, none, some (1/4)⟩)).1 = 0.5 :=
  (detectAsync_default_thresholds ⟨none, none, some (1/4)⟩).2.1 rfl

/-- C10: passing the explicit value `0` for `thresh`, `hier_thresh` or `nms`
to `detectAsync` or `detectFromImageAsync` yields the default 0.5, because
`(config.x) ? config.x : 0.5` treats the falsy number 0 like an absent
field. -/
theorem explicit_zero_threshold_becomes_default (cfg : IConfig) :
    (cfg.thresh = some 0 → (detectAsyncParams (some cfg)).1 = 0.5 ∧
      (detectFromImageAsyncParams (some cfg)).1 = 0.5) ∧
    (cfg.hier_thresh = some 0 → (detectAsyncParams (some cfg)).2.1 = 0.5 ∧
      (detectFromImageAsyncParams (some cfg)).2.1 = 0.5) ∧
    (cfg.nms = some 0 → (detectAsyncParams (some cfg)).2.2 = 0.5 ∧
      (detectFromImageAsyncParams (some cfg)).2.2 = 0.5) := by
  refine ⟨?_, ?_, ?_⟩ <;> intro h <;>
    simp [detectAsyncParams, detectFromImageAsyncParams, resolveThresh, h]

/-- Witness for C10: a caller passing `thresh: 0` gets 0.5. -/
theorem explicit_zero_threshold_becomes_default_witness :
    (detectAsyncParams (some ⟨some 0, none, none⟩)).1 = 0.5 :=
  ((explicit_zero_threshold_becomes_default ⟨some 0, none, none⟩).1 rfl).1

/-! ## Theorems: constructor validation (C9) -/

/-- C9: the constructor throws synchronously, before any native call, exactly
when the config object is absent, both `names` and `namefile` are missing
(falsy), the yolo config file path is missing (falsy), or the weights path is
missing (falsy); otherwise construction proceeds to the native loading calls.
(`readFileSync` is modelled as a total function, so file-system failures are
outside the model; after a successful read, `split('\n')` always yields an
array, which is truthy, so the interior "No names detected." throw is
unreachable.) -/
theorem constructor_validation (config? : Option IDarknetConfig)
    (fs : String → String) :
    ctorFailed config? fs = ctorFailCond config? ∧
      (ctorFailCond config? = true → (constructorRun config? fs).2 = []) := by
  cases config? with
  | none => exact ⟨rfl, fun _ => rfl⟩
  | some config =>
    rcases hn : config.names with _ | l <;>
      cases h2 : truthyStr config.namefile <;>
      cases h3 : truthyStr config.config <;>
      cases h4 : truthyStr config.weights <;>
      simp [ctorFailed, ctorFailCond, constructorRun, hn, h2, h3, h4, truthyArr]

/-- Witness for C9: a config with a missing weights path fails with no native
call made, and a fully specified config passes validation. -/
theorem constructor_validation_witness :
    (constructorRun (some ⟨none, some "yolo.cfg", some ["dog"], none, none⟩)
        (fun _ => "")).2 = [] :=
  (constructor_validation _ _).2 (by decide)

/-! ## Theorems: detection decoding (C7) -/

lemma foldl_detEntry (names : List String) (det : DetRec) (l : List ℕ) :
    ∀ acc : List Detection,
      l.foldl (fun acc j =>
          if 0 < det.prob j then acc ++ [detEntry names det j] else acc) acc
        = acc ++ (l.filter (fun j => decide (0 < det.prob j))).map (detEntry names det) := by
  induction l with
  | nil => intro acc; simp
  | cons j l ih =>
    intro acc
    by_cases h : 0 < det.prob j <;> simp [List.filter_cons, h, ih]

lemma bufferToDetections_eq_bind (names : List String) (classes : ℕ)
    (recs : List DetRec) :
    bufferToDetections names classes recs
      = recs.flatMap (fun det => ((List.range classes).filter
          (fun j => decide (0 < det.prob j))).map (detEntry names det)) := by
  unfold bufferToDetections
  suffices h : ∀ acc : List Detection,
      recs.foldl (fun acc det =>
        (List.range classes).foldl (fun acc j =>
          if 0 < det.prob j then acc ++ [detEntry names det j] else acc) acc) acc
        = acc ++ recs.flatMap (fun det => ((List.range classes).filter
            (fun j => decide (0 < det.prob j))).map (detEntry names det)) by
    simpa using h []
  induction recs with
  | nil => intro acc; simp
  | cons det recs ih =>
    intro acc
    rw [List.foldl_cons, foldl_detEntry, ih]
    simp [List.append_assoc]

/-- C7: `bufferToDetections` emits, for each raw detection record, exactly
one `{name, prob, box}` entry per class index `j < classes` whose probability
is strictly positive, taking the name from the class-name list at `j` and the
record's box for every emitted entry; in particular a record with all class
probabilities ≤ 0 contributes no entries, and a record whose positive classes
are exactly `j1` and `j2` contributes the two corresponding entries, both
carrying the record's box. -/
theorem bufferToDetections_emission (names : List String) (classes : ℕ)
    (recs : List DetRec) (det : DetRec) :
    bufferToDetections names classes recs
        = recs.flatMap (fun d => ((List.range classes).filter
            (fun j => decide (0 < d.prob j))).map (detEntry names d)) ∧
    ((∀ j < classes, det.prob j ≤ 0) → bufferToDetections names classes [det] = []) ∧
    (∀ j1 j2 : ℕ,
      (List.range classes).filter (fun j => decide (0 < det.prob j)) = [j1, j2] →
      bufferToDetections names classes [det]
          = [detEntry names det j1, detEntry names det j2] ∧
        (detEntry names det j1).box = (detEntry names det j2).box) := by
  refine ⟨bufferToDetections_eq_bind names classes recs, ?_, ?_⟩
  · intro h
    rw [bufferToDetections_eq_bind]
    have hf : (List.range classes).filter (fun j => decide (0 < det.prob j)) = [] := by
      rw [List.filter_eq_nil_iff]
      intro j hj
      simp only [decide_eq_true_eq]
      exact not_lt.mpr (h j (List.mem_range.mp hj))
    simp [hf]
  · intro j1 j2 hf
    rw [bufferToDetections_eq_bind]
    exact ⟨by simp [hf], rfl⟩

/-- Witness for C7: a record whose class probabilities are all 0 decodes to
the empty list. -/
theorem bufferToDetections_emission_witness :
    bufferToDetections ["a"] 2 [⟨⟨0, 0, 0, 0⟩, fun _ => 0⟩] = [] :=
  (bufferToDetections_emission ["a"] 2 [⟨⟨0, 0, 0, 0⟩, fun _ => 0⟩]
    ⟨⟨0, 0, 0, 0⟩, fun _ => 0⟩).2.1 (fun _ _ => le_refl 0)

/-! ## Theorems: free-call discipline of detectAsync (C1) -/

/-- C1: evaluation of `detectAsync` (path case) at a failing input.  When
`do_nms_obj` reports an error after the image was loaded and the averaged
detection array was allocated, the call rejects with both allocations
unfreed: `free_image` and `free_detections` are called zero times, not once
(there is no try/finally around the awaits).  On the fully successful run of
the same call each allocation is freed exactly once. -/
theorem detectAsync_free_calls_on_exit_paths :
    (detectAsyncRun ⟨true, true, true, true, true, false, true⟩ true [] 0 []
        (makeMemory 3)).2.2.isSome = false ∧
    (detectAsyncRun ⟨true, true, true, true, true, false, true⟩ true [] 0 []
        (makeMemory 3)).1.countP isAllocImage = 1 ∧
    (detectAsyncRun ⟨true, true, true, true, true, false, true⟩ true [] 0 []
        (makeMemory 3)).1.countP isAllocDets = 1 ∧
    (detectAsyncRun ⟨true, true, true, true, true, false, true⟩ true [] 0 []
        (makeMemory 3)).1.countP isFreeImage = 0 ∧
    (detectAsyncRun ⟨true, true, true, true, true, false, true⟩ true [] 0 []
        (makeMemory 3)).1.countP isFreeDets = 0 ∧
    (detectAsyncRun ⟨true, true, true, true, true, true, true⟩ true [] 0 []
        (makeMemory 3)).2.2.isSome = true ∧
    (detectAsyncRun ⟨true, true, true, true, true, true, true⟩ true [] 0 []
        (makeMemory 3)).1.countP isAllocImage = 1 ∧
    (detectAsyncRun ⟨true, true, true, true, true, true, true⟩ true [] 0 []
        (makeMemory 3)).1.countP isFreeImage = 1 ∧
    (detectAsyncRun ⟨true, true, true, true, true, true, true⟩ true [] 0 []
        (makeMemory 3)).1.countP isAllocDets = 1 ∧
    (detectAsyncRun ⟨true, true, true, true, true, true, true⟩ true [] 0 []
        (makeMemory 3)).1.countP isFreeDets = 1 := by
  decide

/-! ## Theorems: averaging over populated slots only (C6) -/

lemma detectAsyncInner_avgArgs (o : NativeOutcomes) (names : List String)
    (classes : ℕ) (recs : List DetRec) (r : RingState) :
    ∀ n ∈ avgArgs (detectAsyncInner o names classes recs r).1,
      n = (rememberNet r).used := by
  obtain ⟨l, cv, p, rm, av, nm, fi⟩ := o
  cases p <;> cases rm <;> cases av <;> cases nm <;>
    simp [detectAsyncInner, avgArgs]

lemma detectAsyncInner_result (o : NativeOutcomes) (names : List String)
    (classes : ℕ) (recs : List DetRec) (r : RingState) :
    ∀ ds, (detectAsyncInner o names classes recs r).2.2 = some ds →
      ds = bufferToDetections names classes recs := by
  obtain ⟨l, cv, p, rm, av, nm, fi⟩ := o
  intro ds hds
  cases p <;> cases rm <;> cases av <;> cases nm <;>
    simp [detectAsyncInner] at hds <;> simp [hds]

lemma detectAsyncRun_avgArgs (o : NativeOutcomes) (fromPath : Bool)
    (names : List String) (classes : ℕ) (recs : List DetRec) (r : RingState) :
    ∀ n ∈ avgArgs (detectAsyncRun o fromPath names classes recs r).1,
      n = (rememberNet r).used := by
  intro n hn
  cases fromPath with
  | false =>
    cases hcv : o.convertOk with
    | false => simp [detectAsyncRun, hcv, avgArgs] at hn
    | true =>
      simp only [detectAsyncRun, hcv, if_true, if_false, Bool.false_eq_true] at hn
      exact detectAsyncInner_avgArgs o names classes recs r n hn
  | true =>
    cases hl : o.loadOk with
    | false => simp [detectAsyncRun, hl, avgArgs] at hn
    | true =>
      have key : avgArgs (detectAsyncRun o true names classes recs r).1
          = avgArgs (detectAsyncInner o names classes recs r).1 := by
        simp only [detectAsyncRun, hl, if_true]
        cases hm : (detectAsyncInner o names classes recs r).2.2 <;>
          simp [avgArgs, List.filterMap_append]
      rw [key] at hn
      exact detectAsyncInner_avgArgs o names classes recs r n hn

lemma detectAsyncRun_result (o : NativeOutcomes) (fromPath : Bool)
    (names : List String) (classes : ℕ) (recs : List DetRec) (r : RingState) :
    ∀ ds, (detectAsyncRun o fromPath names classes recs r).2.2 = some ds →
      ds = bufferToDetections names classes recs := by
  intro ds hds
  cases fromPath with
  | false =>
    cases hcv : o.convertOk with
    | false => simp [detectAsyncRun, hcv] at hds
    | true =>
      simp only [detectAsyncRun, hcv, if_true, if_false, Bool.false_eq_true] at hds
      exact detectAsyncInner_result o names classes recs r ds hds
  | true =>
    cases hl : o.loadOk with
    | false => simp [detectAsyncRun, hl] at hds
    | true =>
      simp only [detectAsyncRun, hl, if_true] at hds
      cases hm : (detectAsyncInner o names classes recs r).2.2 with
      | none => rw [hm] at hds; simp at hds
      | some dets =>
        rw [hm] at hds
        simp only at hds
        cases hfi : o.freeImgOk with
        | false => rw [hfi] at hds; simp at hds
        | true =>
          rw [hfi] at hds
          simp only [if_true] at hds
          obtain rfl : dets = ds := Option.some.inj hds
          exact detectAsyncInner_result o names classes recs r dets hm

/-- C6: for every detect call started from any reachable ring state
(constructed with any `config.memory` and any interface operations whose
explicit reset capacities are positive), the native averaging call receives a
slot count equal to the populated-slot count at that moment (after the
preceding remember), every slot below that count has been written — so no
uninitialized slot is read, including on the very first call after
construction or reset — and a successful call returns the well-formed
(possibly empty) decoded detection list. -/
theorem avg_reads_only_populated_slots (m0 : Option ℕ) (ops : List MemOp)
    (o : NativeOutcomes) (fromPath : Bool) (names : List String) (classes : ℕ)
    (recs : List DetRec) (hops : ∀ op ∈ ops, capOk op) :
    (∀ n ∈ avgArgs (detectAsyncRun o fromPath names classes recs
        (runMemOps m0 ops)).1,
      n = (rememberNet (runMemOps m0 ops)).used ∧
        ∀ t < n, t ∈ (rememberNet (runMemOps m0 ops)).written) ∧
    (∀ ds, (detectAsyncRun o fromPath names classes recs
        (runMemOps m0 ops)).2.2 = some ds →
      ds = bufferToDetections names classes recs) := by
  have hinv : RingInv (rememberNet (runMemOps m0 ops)) :=
    ringInv_rememberNet _ (ringInv_runMemOps m0 ops hops)
  refine ⟨fun n hn => ?_, detectAsyncRun_result o fromPath names classes recs _⟩
  have hn' : n = (rememberNet (runMemOps m0 ops)).used :=
    detectAsyncRun_avgArgs o fromPath names classes recs _ n hn
  refine ⟨hn', fun t ht => ?_⟩
  exact hinv.2.2.2.2 t (by rw [hn'] at ht; exact ht)

/-- Witness for C6: the very first detect call after construction with the
default capacity, all native calls succeeding, passes slot count 1 to the
averaging call, matching the populated count after the remember. -/
theorem avg_reads_only_populated_slots_witness :
    1 = (rememberNet (runMemOps none [])).used :=
  ((avg_reads_only_populated_slots none [] ⟨true, true, true, true, true, true, true⟩
    true [] 0 [] (fun op h => absurd h (List.not_mem_nil op))).1 1 (by decide)).1

/-! ## Theorems: the image codec (C2, C3) -/

lemma jLoopW_succ {α : Type} (e : ℕ → ℕ → ℕ → ℕ) (v : ℕ → ℕ → ℕ → α)
    (i k n : ℕ) (fb : ℕ → α) :
    jLoopW e v i k (n + 1) fb
      = setIdx (jLoopW e v i k n fb) (e i k n) (v i k n) := by
  simp only [jLoopW, List.range_succ, List.foldl_append, List.foldl_cons, List.foldl_nil]

lemma kLoopW_succ {α : Type} (e : ℕ → ℕ → ℕ → ℕ) (v : ℕ → ℕ → ℕ → α)
    (w i n : ℕ) (fb : ℕ → α) :
    kLoopW e v w i (n + 1) fb = jLoopW e v i n w (kLoopW e v w i n fb) := by
  simp only [kLoopW, List.range_succ, List.foldl_append, List.foldl_cons, List.foldl_nil]

lemma triLoopW_succ {α : Type} (e : ℕ → ℕ → ℕ → ℕ) (v : ℕ → ℕ → ℕ → α)
    (h c w : ℕ) (fb : ℕ → α) :
    triLoopW e v (h + 1) c w fb = kLoopW e v w h c (triLoopW e v h c w fb) := by
  simp only [triLoopW, List.range_succ, List.foldl_append, List.foldl_cons, List.foldl_nil]

lemma jLoopW_miss {α : Type} (e : ℕ → ℕ → ℕ → ℕ) (v : ℕ → ℕ → ℕ → α)
    (i k : ℕ) : ∀ (n : ℕ) (fb : ℕ → α) (p : ℕ), (∀ j < n, e i k j ≠ p) →
      jLoopW e v i k n fb p = fb p := by
  intro n
  induction n with
  | zero => intro fb p _; rfl
  | succ n ih =>
    intro fb p hp
    rw [jLoopW_succ]
    show (if p = e i k n then v i k n else jLoopW e v i k n fb p) = fb p
    rw [if_neg (fun hc => hp n (Nat.lt_succ_self n) hc.symm)]
    exact ih fb p (fun j hj => hp j (Nat.lt_succ_of_lt hj))

lemma jLoopW_hit {α : Type} (e : ℕ → ℕ → ℕ → ℕ) (v : ℕ → ℕ → ℕ → α)
    (i k : ℕ) : ∀ (n j0 : ℕ) (fb : ℕ → α), j0 < n →
      (∀ j, j0 < j → j < n → e i k j ≠ e i k j0) →
      jLoopW e v i k n fb (e i k j0) = v i k j0 := by
  intro n
  induction n with
  | zero => intro j0 fb hj0 _; exact absurd hj0 (Nat.not_lt_zero j0)
  | succ n ih =>
    intro j0 fb hj0 hlater
    rw [jLoopW_succ]
    show (if e i k j0 = e i k n then v i k n else jLoopW e v i k n fb (e i k j0))
      = v i k j0
    rcases Nat.lt_succ_iff_lt_or_eq.mp hj0 with h | h
    · rw [if_neg (fun hc => hlater n h (Nat.lt_succ_self n) hc.symm)]
      exact ih j0 fb h (fun j h1 h2 => hlater j h1 (Nat.lt_succ_of_lt h2))
    · subst h
      rw [if_pos rfl]

lemma kLoopW_miss {α : Type} (e : ℕ → ℕ → ℕ → ℕ) (v : ℕ → ℕ → ℕ → α)
    (w i : ℕ) : ∀ (n : ℕ) (fb : ℕ → α) (p : ℕ),
      (∀ k < n, ∀ j < w, e i k j ≠ p) → kLoopW e v w i n fb p = fb p := by
  intro n
  induction n with
  | zero => intro fb p _; rfl
  | succ n ih =>
    intro fb p hp
    rw [kLoopW_succ, jLoopW_miss e v i n w _ p (hp n (Nat.lt_succ_self n))]
    exact ih fb p (fun k hk => hp k (Nat.lt_succ_of_lt hk))

lemma kLoopW_hit {α : Type} (e : ℕ → ℕ → ℕ → ℕ) (v : ℕ → ℕ → ℕ → α)
    (w i : ℕ) : ∀ (n k0 j0 : ℕ) (fb : ℕ → α), k0 < n → j0 < w →
      (∀ j, j0 < j → j < w → e i k0 j ≠ e i k0 j0) →
      (∀ k, k0 < k → k < n → ∀ j < w, e i k j ≠ e i k0 j0) →
      kLoopW e v w i n fb (e i k0 j0) = v i k0 j0 := by
  intro n
  induction n with
  | zero => intro k0 j0 fb hk0 _ _ _; exact absurd hk0 (Nat.not_lt_zero k0)
  | succ n ih =>
    intro k0 j0 fb hk0 hj0 hlaterJ hlaterK
    rw [kLoopW_succ]
    rcases Nat.lt_succ_iff_lt_or_eq.mp hk0 with h | h
    · rw [jLoopW_miss e v i n w _ _ (hlaterK n h (Nat.lt_succ_self n))]
      exact ih k0 j0 fb h hj0 hlaterJ
        (fun k h1 h2 => hlaterK k h1 (Nat.lt_succ_of_lt h2))
    · subst h
      exact jLoopW_hit e v i k0 w j0 _ hj0 hlaterJ

lemma triLoopW_hit {α : Type} (e : ℕ → ℕ → ℕ → ℕ) (v : ℕ → ℕ → ℕ → α)
    (c w : ℕ) : ∀ (h i0 k0 j0 : ℕ) (fb : ℕ → α), i0 < h → k0 < c → j0 < w →
      (∀ j, j0 < j → j < w → e i0 k0 j ≠ e i0 k0 j0) →
      (∀ k, k0 < k → k < c → ∀ j < w, e i0 k j ≠ e i0 k0 j0) →
      (∀ i, i0 < i → i < h → ∀ k < c, ∀ j < w, e i k j ≠ e i0 k0 j0) →
      triLoopW e v h c w fb (e i0 k0 j0) = v i0 k0 j0 := by
  intro h
  induction h with
  | zero => intro i0 k0 j0 fb hi0 _ _ _ _ _; exact absurd hi0 (Nat.not_lt_zero i0)
  | succ h ih =>
    intro i0 k0 j0 fb hi0 hk0 hj0 hlaterJ hlaterK hlaterI
    rw [triLoopW_succ]
    rcases Nat.lt_succ_iff_lt_or_eq.mp hi0 with hlt | heq
    · rw [kLoopW_miss e v w h c _ _ (hlaterI h hlt (Nat.lt_succ_self h))]
      exact ih i0 k0 j0 fb hlt hk0 hj0 hlaterJ hlaterK
        (fun i h1 h2 => hlaterI i h1 (Nat.lt_succ_of_lt h2))
    · subst heq
      exact kLoopW_hit e v w i0 c k0 j0 _ hk0 hj0 hlaterJ hlaterK

lemma addMulInj (a a' b m m' : ℕ) (ha : a < b) (ha' : a' < b)
    (h : a + b * m = a' + b * m') : a = a' ∧ m = m' := by
  have h1 : (a + b * m) % b = (a' + b * m') % b := by rw [h]
  rw [Nat.add_mul_mod_self_left, Nat.add_mul_mod_self_left,
    Nat.mod_eq_of_lt ha, Nat.mod_eq_of_lt ha'] at h1
  refine ⟨h1, ?_⟩
  have h2 : b * m = b * m' := by
    rw [h1] at h
    exact Nat.add_left_cancel h
  exact Nat.eq_of_mul_eq_mul_left (Nat.lt_of_le_of_lt (Nat.zero_le a) ha) h2

lemma planarIdx_inj (w h i i' k k' j j' : ℕ) (hi : i < h) (hi' : i' < h)
    (hj : j < w) (hj' : j' < w)
    (heq : k * w * h + i * w + j = k' * w * h + i' * w + j') :
    i = i' ∧ k = k' ∧ j = j' := by
  have e1 : k * w * h + i * w + j = j + w * (i + h * k) := by ring
  have e2 : k' * w * h + i' * w + j' = j' + w * (i' + h * k') := by ring
  rw [e1, e2] at heq
  obtain ⟨hjj, hrest⟩ := addMulInj j j' w (i + h * k) (i' + h * k') hj hj' heq
  obtain ⟨hii, hkk⟩ := addMulInj i i' h k k' hi hi' hrest
  exact ⟨hii, hkk, hjj⟩

lemma interIdx_inj (w c i i' k k' j j' : ℕ) (hk : k < c) (hk' : k' < c)
    (hj : j < w) (hj' : j' < w)
    (heq : i * (c * w) + j * c + k = i' * (c * w) + j' * c + k') :
    i = i' ∧ k = k' ∧ j = j' := by
  have e1 : i * (c * w) + j * c + k = k + c * (j + w * i) := by ring
  have e2 : i' * (c * w) + j' * c + k' = k' + c * (j' + w * i') := by ring
  rw [e1, e2] at heq
  obtain ⟨hkk, hrest⟩ := addMulInj k k' c (j + w * i) (j' + w * i') hk hk' heq
  obtain ⟨hjj, hii⟩ := addMulInj j j' w i i' hj hj' hrest
  exact ⟨hii, hkk, hjj⟩

lemma rgbToDarknet_get (B : ℕ → ℕ) (w h c i k j : ℕ)
    (hi : i < h) (hk : k < c) (hj : j < w) :
    rgbToDarknet B w h c (k * w * h + i * w + j)
      = jsDiv255 (B (i * (w * c) + j * c + k)) := by
  unfold rgbToDarknet
  refine triLoopW_hit _ _ c w h i k j _ hi hk hj ?_ ?_ ?_
  · intro j' h1 h2 hc
    have := (planarIdx_inj w h i i k k j' j hi hi h2 hj hc).2.2
    omega
  · intro k' h1 h2 j' hj' hc
    have := (planarIdx_inj w h i i k' k j' j hi hi hj' hj hc).2.1
    omega
  · intro i' h1 h2 k' hk' j' hj' hc
    have := (planarIdx_inj w h i' i k' k j' j h2 hi hj' hj hc).1
    omega

lemma imageToRGBBuffer_get (data : ℕ → ℕ × ℕ) (w h c i k j : ℕ)
    (hi : i < h) (hk : k < c) (hj : j < w) :
    imageToRGBBuffer data w h c (i * (c * w) + j * c + k)
      = jsToUint8 (jsMul255 (data (k * w * h + i * w + j))) := by
  unfold imageToRGBBuffer
  refine triLoopW_hit _ _ c w h i k j _ hi hk hj ?_ ?_ ?_
  · intro j' h1 h2 hc
    have := (interIdx_inj w c i i k k j' j hk hk h2 hj hc).2.2
    omega
  · intro k' h1 h2 j' hj' hc
    have := (interIdx_inj w c i i k' k j' j h2 hk hj' hj hc).2.1
    omega
  · intro i' h1 h2 k' hk' j' hj' hc
    have := (interIdx_inj w c i' i k' k j' j hk' hk hj' hj hc).1
    omega

set_option maxRecDepth 200000 in
lemma byteRT_lt_256 : ∀ b < 256, byteRT b = b := by decide

lemma byteRT_id (b : ℕ) (hb : b ≤ 255) : byteRT b = b :=
  byteRT_lt_256 b (by omega)

/-- C3: for all valid `(w, h, c)` and every interleaved byte buffer, the
planar conversion `rgbToDarknet` stores, at element `k*w*h + i*w + j` (row
`i < h`, column `j < w`, channel `k < c`), element `i*(c*w) + j*c + k` of the
input divided by 255 (the division performed in binary64 and stored as
binary32, which is what `floatBuff[...] = buffer[...] / 255` does). -/
theorem rgbToDarknet_planar_mapping (B : ℕ → ℕ) (w h c i k j : ℕ)
    (hi : i < h) (hk : k < c) (hj : j < w) :
    rgbToDarknet B w h c (k * w * h + i * w + j)
      = jsDiv255 (B (i * (c * w) + j * c + k)) := by
  have h3 : i * (c * w) + j * c + k = i * (w * c) + j * c + k := by ring
  rw [h3]
  exact rgbToDarknet_get B w h c i k j hi hk hj

/-- Witness for C3 on a 2×1 one-channel buffer at row 0, column 1. -/
theorem rgbToDarknet_planar_mapping_witness :
    rgbToDarknet (fun _ => 7) 2 1 1 (0 * 2 * 1 + 0 * 2 + 1) = jsDiv255 7 :=
  rgbToDarknet_planar_mapping (fun _ => 7) 2 1 1 0 0 1 (by decide) (by decide)
    (by decide)

lemma interIdx_decompose (w h c p : ℕ) (hp : p < w * h * c) :
    ∃ i k j, i < h ∧ k < c ∧ j < w ∧ p = i * (c * w) + j * c + k := by
  have hc : 0 < c := by
    rcases Nat.eq_zero_or_pos c with rfl | hcp
    · simp at hp
    · exact hcp
  have hw : 0 < w := by
    rcases Nat.eq_zero_or_pos w with rfl | hwp
    · simp at hp
    · exact hwp
  have hq : p / c < w * h := (Nat.div_lt_iff_lt_mul hc).mpr hp
  have hi : (p / c) / w < h := by
    rw [Nat.div_lt_iff_lt_mul hw, Nat.mul_comm h w]
    exact hq
  refine ⟨(p / c) / w, p % c, (p / c) % w, hi, Nat.mod_lt _ hc, Nat.mod_lt _ hw, ?_⟩
  have h1 : c * (p / c) + p % c = p := Nat.div_add_mod p c
  have h2 : w * ((p / c) / w) + (p / c) % w = p / c := Nat.div_add_mod (p / c) w
  have h3 : (p / c) / w * (c * w) + (p / c) % w * c + p % c
      = c * (w * ((p / c) / w) + (p / c) % w) + p % c := by ring
  rw [h3, h2, h1]

/-- C2: for all valid `(w, h, c)` and every byte buffer `B` of length
`w*h*c`, converting to the planar binary32 form with `rgbToDarknet` and back
with the inverse loop of `imageToRGBBuffer` yields, at every sample position,
a byte differing from `B` by at most 1, and exactly equal at positions whose
value scales exactly through the 1/255 quantization.  (The round trip is in
fact exact at every byte value: truncating `float32(b/255) * 255` always
recovers `b`.) -/
theorem codec_round_trip (B : ℕ → ℕ) (w h c : ℕ) (hB : ∀ p, B p ≤ 255)
    (p : ℕ) (hp : p < w * h * c) :
    Nat.dist (imageToRGBBuffer (rgbToDarknet B w h c) w h c p) (B p) ≤ 1 ∧
    (scalesExactly (B p) →
      imageToRGBBuffer (rgbToDarknet B w h c) w h c p = B p) := by
  obtain ⟨i, k, j, hi, hk, hj, rfl⟩ := interIdx_decompose w h c p hp
  have h1 : imageToRGBBuffer (rgbToDarknet B w h c) w h c (i * (c * w) + j * c + k)
      = jsToUint8 (jsMul255 (rgbToDarknet B w h c (k * w * h + i * w + j))) :=
    imageToRGBBuffer_get (rgbToDarknet B w h c) w h c i k j hi hk hj
  have h2 : rgbToDarknet B w h c (k * w * h + i * w + j)
      = jsDiv255 (B (i * (c * w) + j * c + k)) :=
    rgbToDarknet_planar_mapping B w h c i k j hi hk hj
  rw [h1, h2]
  have h4 : jsToUint8 (jsMul255 (jsDiv255 (B (i * (c * w) + j * c + k))))
      = B (i * (c * w) + j * c + k) := byteRT_id _ (hB _)
  rw [h4]
  exact ⟨by simp [Nat.dist_self], fun _ => rfl⟩

/-- Witness for C2 on a 1×1 one-channel buffer holding the byte 7. -/
theorem codec_round_trip_witness :
    Nat.dist (imageToRGBBuffer (rgbToDarknet (fun _ => 7) 1 1 1) 1 1 1 0) 7 ≤ 1 :=
  (codec_round_trip (fun _ => 7) 1 1 1 (fun _ => by show 7 ≤ 255; decide) 0
    (by decide)).1
